import Mathlib

/-
Verification of the natural-language specification of the `oracles`
repository against a shallow embedding of its Rust sources.

Embedded components:
  * `iot_packet_verifier/src/verifier.rs` — `payload_size_to_dc`,
    `Verifier::verify`, `CachedOrgClient::{enable_org, disable_org}`.
  * `file_store/src/file_sink.rs` — `FileSink::{write, maybe_roll,
    deposit_sink, run}` over a model filesystem.

Machine integers (`u64`, `usize`) are modelled as `Nat`: every operation
involved (`max`, floor division by 24, additions of in-memory byte counts)
stays far below `2^64` overflow in the source, so no wrap-around modelling
is required.  Fallible Rust code returns `Except`.
-/

namespace Oracles

/-! ## Association lists (model of `HashMap` lookups / directory listings) -/

/-- Lookup of the first binding of a key in an association list.  Models
`HashMap::get` as well as "does a file with this name exist in this
directory". -/
def assocLookup {α : Type} : List (Nat × α) → Nat → Option α
  | [], _ => none
  | (k, v) :: rest, n => if k = n then some v else assocLookup rest n

/-- Insert or replace a binding, keeping the position of an existing key.
Models `HashMap::insert` / `Entry::or_insert` followed by an assignment. -/
def assocInsert {α : Type} : List (Nat × α) → Nat → α → List (Nat × α)
  | [], k, v => [(k, v)]
  | (k', v') :: rest, k, v =>
      if k' = k then (k, v) :: rest else (k', v') :: assocInsert rest k v

/-! ## `iot_packet_verifier/src/verifier.rs` : data model -/

/-- Model of `payload_size_to_dc` (verifier.rs lines 139-141):
`payload_size.max(24) / 24` on `u64`, i.e. on `Nat` (no overflow). -/
def payload_size_to_dc (payload_size : Nat) : Nat :=
  max payload_size 24 / 24

/-- Model of `PacketRouterPacketReportV1` restricted to the fields the
verifier reads.  Byte strings are `List Nat`. -/
structure PacketReport where
  gateway_timestamp_ms : Nat
  oui : Nat
  payload_hash : List Nat
  payload_size : Nat
  gateway : List Nat
deriving DecidableEq

/-- Model of the pass-local `PacketId` struct (verifier.rs lines 32-37). -/
structure PacketId where
  ts : Nat
  oui : Nat
  hash : List Nat
deriving DecidableEq

/-- The packet identity built in `Verifier::verify` (lines 82-86). -/
def PacketReport.packetId (r : PacketReport) : PacketId :=
  ⟨r.gateway_timestamp_ms, r.oui, r.payload_hash⟩

/-- Model of the `ValidPacket` protobuf message (fields the verifier sets). -/
structure ValidPacket where
  payload_size : Nat
  gateway : List Nat
  payload_hash : List Nat
deriving DecidableEq

/-- Model of the `InvalidPacket` protobuf message. -/
structure InvalidPacket where
  payload_size : Nat
  gateway : List Nat
  payload_hash : List Nat
deriving DecidableEq

/-- Model of `VerificationError` (verifier.rs lines 39-51): one constructor
per collaborator, carrying that collaborator's error type. -/
inductive VerificationError (DE CE BE VE IE : Type) where
  | DebitError : DE → VerificationError DE CE BE VE IE
  | ConfigError : CE → VerificationError DE CE BE VE IE
  | BurnError : BE → VerificationError DE CE BE VE IE
  | ValidPacketWriterError : VE → VerificationError DE CE BE VE IE
  | InvalidPacketWriterError : IE → VerificationError DE CE BE VE IE
deriving DecidableEq

/-- `PublicKeyBinary` modelled as its byte string. -/
abbrev Payer := List Nat

/-- The `HashMap<u64, PublicKeyBinary>` org cache. -/
abbrev OrgCache := List (Nat × Payer)

/-- The collaborators of `Verifier::verify`, i.e. the `Debiter`,
`ConfigServer`, `Burner` and `PacketWriter` trait objects.  Each operation
is a pure state-passing function that may fail with the collaborator's own
error type, mirroring the `async fn ... -> Result<_, Self::Error>`
signatures. -/
structure VerifyEnv (DS CS BS VS IS DE CE BE VE IE : Type) where
  fetch_org : CS → Nat → OrgCache → Except CE (Payer × OrgCache × CS)
  debit_if_sufficient : DS → Payer → Nat → Except DE (Bool × DS)
  burn : BS → Payer → Nat → Except BE BS
  enable_org : CS → Nat → Except CE CS
  disable_org : CS → Nat → Except CE CS
  write_valid : VS → ValidPacket → Except VE VS
  write_invalid : IS → InvalidPacket → Except IE IS

/-- The mutable state threaded through one verifier pass: the collaborator
states plus the two pass-local containers `org_cache` and `packets_seen`
(the `HashSet` is modelled as a duplicate-free cons list). -/
structure VerifyState (DS CS BS VS IS : Type) where
  debiter : DS
  config_server : CS
  burner : BS
  valid_packets : VS
  invalid_packets : IS
  org_cache : OrgCache
  packets_seen : List PacketId
deriving DecidableEq

/-- One iteration of the `while let Some(report)` loop of
`Verifier::verify` (verifier.rs lines 79-133), in source order: compute
the debit amount, skip an already-seen packet id, record the id, fetch the
org, check the debit, then either burn + write valid + enable, or write
invalid + disable.  Every collaborator error is tagged with its
`VerificationError` constructor via the `map_err` calls of the source. -/
def verify_report {DS CS BS VS IS DE CE BE VE IE : Type}
    (env : VerifyEnv DS CS BS VS IS DE CE BE VE IE)
    (report : PacketReport) (s : VerifyState DS CS BS VS IS) :
    Except (VerificationError DE CE BE VE IE) (VerifyState DS CS BS VS IS) :=
  let debit_amount := payload_size_to_dc report.payload_size
  let packet_id := report.packetId
  if packet_id ∈ s.packets_seen then
    Except.ok s
  else
    let s := { s with packets_seen := packet_id :: s.packets_seen }
    match env.fetch_org s.config_server report.oui s.org_cache with
    | Except.error e => Except.error (VerificationError.ConfigError e)
    | Except.ok (payer, cache, cs) =>
      let s := { s with config_server := cs, org_cache := cache }
      match env.debit_if_sufficient s.debiter payer debit_amount with
      | Except.error e => Except.error (VerificationError.DebitError e)
      | Except.ok (sufficient, ds) =>
        let s := { s with debiter := ds }
        if sufficient then
          match env.burn s.burner payer debit_amount with
          | Except.error e => Except.error (VerificationError.BurnError e)
          | Except.ok bs =>
            let s := { s with burner := bs }
            match env.write_valid s.valid_packets
                ⟨report.payload_size, report.gateway, report.payload_hash⟩ with
            | Except.error e =>
                Except.error (VerificationError.ValidPacketWriterError e)
            | Except.ok vs =>
              let s := { s with valid_packets := vs }
              match env.enable_org s.config_server report.oui with
              | Except.error e => Except.error (VerificationError.ConfigError e)
              | Except.ok cs => Except.ok { s with config_server := cs }
        else
          match env.write_invalid s.invalid_packets
              ⟨report.payload_size, report.gateway, report.payload_hash⟩ with
          | Except.error e =>
              Except.error (VerificationError.InvalidPacketWriterError e)
          | Except.ok is2 =>
            let s := { s with invalid_packets := is2 }
            match env.disable_org s.config_server report.oui with
            | Except.error e => Except.error (VerificationError.ConfigError e)
            | Except.ok cs => Except.ok { s with config_server := cs }

/-- `Verifier::verify` over a finite report stream: fold `verify_report`
over the reports, stopping at the first error (`?` propagation). -/
def verify {DS CS BS VS IS DE CE BE VE IE : Type}
    (env : VerifyEnv DS CS BS VS IS DE CE BE VE IE) :
    List PacketReport → VerifyState DS CS BS VS IS →
    Except (VerificationError DE CE BE VE IE) (VerifyState DS CS BS VS IS)
  | [], s => Except.ok s
  | r :: rs, s =>
    match verify_report env r s with
    | Except.error e => Except.error e
    | Except.ok s' => verify env rs s'

/-! ## `CachedOrgClient` (verifier.rs lines 185-256)

The client carries the shared `enabled_clients : HashMap<u64, bool>` map.
Instead of performing the gRPC calls, the model records each issued
enable / disable RPC (by oui, in order) in a trace list, so that "issues
an RPC" is observable. -/

/-- Model of `CachedOrgClient`: the `enabled_clients` map plus traces of
the enable and disable RPCs actually issued. -/
structure CachedOrgClient where
  enabled_clients : List (Nat × Bool)
  enable_rpcs : List Nat
  disable_rpcs : List Nat
deriving DecidableEq

/-- `CachedOrgClient::new`: empty `enabled_clients` map, no RPCs issued. -/
def CachedOrgClient.new : CachedOrgClient := ⟨[], [], []⟩

/-- Model of `CachedOrgClient::enable_org` (verifier.rs lines 227-240):
`mem::replace(self.enabled_clients.entry(oui).or_insert(false), true)`
reads the flag (defaulting a missing entry to `false`), stores `true`, and
the enable RPC is issued exactly when the old flag was `false`. -/
def CachedOrgClient.enable_org (c : CachedOrgClient) (oui : Nat) :
    CachedOrgClient :=
  let old := (assocLookup c.enabled_clients oui).getD false
  let c := { c with enabled_clients := assocInsert c.enabled_clients oui true }
  if old then c else { c with enable_rpcs := c.enable_rpcs ++ [oui] }

/-- Model of `CachedOrgClient::disable_org` (verifier.rs lines 242-255):
`mem::replace(self.enabled_clients.entry(oui).or_insert(true), false)`
reads the flag (defaulting a missing entry to `true`), stores `false`, and
the disable RPC is issued exactly when the old flag was `true`. -/
def CachedOrgClient.disable_org (c : CachedOrgClient) (oui : Nat) :
    CachedOrgClient :=
  let old := (assocLookup c.enabled_clients oui).getD true
  let c := { c with enabled_clients := assocInsert c.enabled_clients oui false }
  if old then { c with disable_rpcs := c.disable_rpcs ++ [oui] } else c

/-- A sequence of enable (`true`) / disable (`false`) calls on one oui,
applied in order. -/
def runCalls (oui : Nat) (c : CachedOrgClient) : List Bool → CachedOrgClient
  | [] => c
  | true :: ks => runCalls oui (c.enable_org oui) ks
  | false :: ks => runCalls oui (c.disable_org oui) ks

/-- Number of false→true transitions along the flag trajectory of one oui:
the flag after a call is `true` for enable and `false` for disable, so a
false→true transition is an enable call finding the flag `false`.  The
first argument is the flag's starting value. -/
def countFT : Bool → List Bool → Nat
  | _, [] => 0
  | f, k :: ks => (if k && !f then 1 else 0) + countFT k ks

/-- Number of true→false transitions along the flag trajectory of one oui
(a disable call finding the flag `true`).  The first argument is the
flag's starting value. -/
def countTF : Bool → List Bool → Nat
  | _, [] => 0
  | f, k :: ks => (if !k && f then 1 else 0) + countTF k ks

/-! ## `file_store/src/file_sink.rs` : data model

The sink is modelled over an explicit filesystem: the `tmp/` and target
directories are association lists from file name to file data.  File
names are the millisecond timestamps at open (`{FILE_NAME}.{ms}.gz`), so
a name is a `Nat`.  A file's data is the list of length-delimited frames
written through the transport, plus a `sealed` flag recording whether the
gzip encoder has been shut down (flushed and finalized).  Wall-clock time
is passed to each operation explicitly. -/

/-- A file on disk: its decoded frames and whether its writer stack has
been shut down (gzip trailer finalized). -/
structure FileData where
  frames : List (List Nat)
  sealed : Bool
deriving DecidableEq

/-- Model of `ActiveSink` (file_sink.rs lines 160-166): accumulated size,
tmp-file name (`path`), and open time (`time`); the transport's buffered
content lives in the tmp directory entry named `path`. -/
structure ActiveSink where
  size : Nat
  path : Nat
  time : Nat
deriving DecidableEq

/-- Model of `FileSink` (file_sink.rs lines 147-158) together with the
filesystem state it owns and the uploader notifications it has sent. -/
structure FileSink where
  max_size : Nat
  roll_time : Nat
  tmp : List (Nat × FileData)
  target : List (Nat × FileData)
  uploads : List Nat
  deposits : Bool
  active_sink : Option ActiveSink
deriving DecidableEq

/-- A fresh sink as built by `FileSinkBuilder::create`: empty directories,
no active file. -/
def initSink (max_size roll_time : Nat) (deposits : Bool) : FileSink :=
  { max_size := max_size, roll_time := roll_time, tmp := [], target := [],
    uploads := [], deposits := deposits, active_sink := none }

/-- Remove every directory entry with the given name. -/
def eraseFile : List (Nat × FileData) → Nat → List (Nat × FileData)
  | [], _ => []
  | (k, v) :: rest, n =>
      if k = n then eraseFile rest n else (k, v) :: eraseFile rest n

/-- Mark the named file's data as sealed (models `ActiveSink::shutdown`,
file_sink.rs lines 169-172: flush the framer and finalize the gzip
trailer of the file the transport writes to). -/
def sealFile (files : List (Nat × FileData)) (n : Nat) :
    List (Nat × FileData) :=
  files.map fun kv =>
    if kv.1 = n then (kv.1, { kv.2 with sealed := true }) else kv

/-- `active_sink.shutdown()` on the sink state. -/
def shutdownActive (s : FileSink) (n : Nat) : FileSink :=
  { s with tmp := sealFile s.tmp n }

/-- Append one frame to the named file (the `transport.send(buf)` of
`FileSink::write`). -/
def appendFrame (files : List (Nat × FileData)) (n : Nat)
    (buf : List Nat) : List (Nat × FileData) :=
  files.map fun kv =>
    if kv.1 = n then (kv.1, { kv.2 with frames := kv.2.frames ++ [buf] }) else kv

/-- Model of `FileSink::deposit_sink` (file_sink.rs lines 285-302): if no
file with that name exists in `tmp/`, return success having done nothing;
otherwise rename it into the target directory and, when a deposit channel
is configured, notify the uploader. -/
def FileSink.deposit_sink (s : FileSink) (sink_path : Nat) : FileSink :=
  match assocLookup s.tmp sink_path with
  | none => s
  | some d =>
      let s := { s with
        tmp := eraseFile s.tmp sink_path
        target := s.target ++ [(sink_path, d)] }
      if s.deposits then { s with uploads := s.uploads ++ [sink_path] } else s

/-- Model of `FileSink::new_sink` (file_sink.rs lines 254-271): create an
empty tmp file named by the current time and return the active-sink
record (`size = 0`, `path = time = now`). -/
def FileSink.openSink (s : FileSink) (now : Nat) : FileSink :=
  { s with
    active_sink := some ⟨0, now, now⟩
    tmp := s.tmp ++ [(now, ⟨[], false⟩)] }

/-- Model of `FileSink::maybe_roll` (file_sink.rs lines 273-283),
including the source's rollover condition written exactly as in the code:
`active_sink.time + self.roll_time > Utc::now()`.  When it holds, the
active file is sealed, deposited, and the slot cleared. -/
def FileSink.maybe_roll (s : FileSink) (now : Nat) : FileSink :=
  match s.active_sink with
  | some a =>
      if a.time + s.roll_time > now then
        let s := shutdownActive s a.path
        let s := s.deposit_sink a.path
        { s with active_sink := none }
      else s
  | none => s

/-- Model of `FileSink::write` (file_sink.rs lines 304-335).  The first
`match` either rolls an over-large active file (seal, deposit, reopen) or
opens a fresh one when none is active; the trailing `if let` then sends
the frame, falling back to the "sink not available" error when no active
sink exists at that point. -/
def FileSink.write (s : FileSink) (now : Nat) (buf : List Nat) :
    Except String FileSink :=
  let buf_len := buf.length
  let s1 :=
    match s.active_sink with
    | some a =>
        if s.max_size ≤ a.size + buf_len then
          let s2 := shutdownActive s a.path
          let s2 := s2.deposit_sink a.path
          s2.openSink now
        else s
    | none => s.openSink now
  match s1.active_sink with
  | some a =>
      Except.ok { s1 with
        tmp := appendFrame s1.tmp a.path buf
        active_sink := some { a with size := a.size + buf_len } }
  | none => Except.error "sink not available"

/-- An event observed by the `run` select loop: a rollover-timer tick or
a message received on the input channel, each carrying the wall-clock
time at which it is handled. -/
inductive SinkEvent where
  | tick : Nat → SinkEvent
  | msg : Nat → List Nat → SinkEvent
deriving DecidableEq

/-- The time at which an event is handled. -/
def eventTime : SinkEvent → Nat
  | SinkEvent.tick n => n
  | SinkEvent.msg n _ => n

/-- The payloads carried by the message events, in order: the input
sequence sent to the sink. -/
def payloadsOf : List SinkEvent → List (List Nat)
  | [] => []
  | SinkEvent.tick _ :: es => payloadsOf es
  | SinkEvent.msg _ b :: es => b :: payloadsOf es

/-- Event times are strictly increasing and bounded below: each event is
handled strictly after the previous one (millisecond clocks never tie
within one sink instance). -/
def timesIncreasing : Nat → List SinkEvent → Bool
  | _, [] => true
  | c, e :: es => decide (c ≤ eventTime e) && timesIncreasing (eventTime e + 1) es

/-- One iteration of the `tokio::select!` body of `FileSink::run`
(file_sink.rs lines 230-245): a timer tick calls `maybe_roll`; a message
calls `write`, logging and dropping any error. -/
def stepEvent (s : FileSink) : SinkEvent → FileSink
  | SinkEvent.tick now => s.maybe_roll now
  | SinkEvent.msg now buf =>
      match s.write now buf with
      | Except.ok s' => s'
      | Except.error _ => s

/-- The `run` loop body over a finite schedule of events; the list ending
models the shutdown signal firing (or the channel reaching end-of-stream),
either of which breaks the loop before any further message. -/
def runLoop (s : FileSink) : List SinkEvent → FileSink
  | [] => s
  | e :: es => runLoop (stepEvent s e) es

/-- The code after the loop of `FileSink::run` (file_sink.rs lines
246-251): if a sink is active, shut it down (seal) and clear the slot.
Note the source does not call `deposit_sink` here. -/
def finishRun (s : FileSink) : FileSink :=
  match s.active_sink with
  | some a => { shutdownActive s a.path with active_sink := none }
  | none => s

/-- Model of `FileSink::run`: drive the loop over the events, then run
the post-loop cleanup. -/
def FileSink.run (s : FileSink) (events : List SinkEvent) : FileSink :=
  finishRun (runLoop s events)

/-! ## Generic list helpers over the file model -/

/-- Concatenation of the decoded frames of a list of files, in list
order. -/
def concatFrames : List (Nat × FileData) → List (List Nat)
  | [] => []
  | f :: fs => f.2.frames ++ concatFrames fs

/-- The frames currently held by the active file (empty when none). -/
def activeFrames (s : FileSink) : List (List Nat) :=
  match s.active_sink with
  | none => []
  | some a =>
      match assocLookup s.tmp a.path with
      | some d => d.frames
      | none => []

/-- Sum of the frame payload lengths of a file: the sink's accounting of
a file's uncompressed framed length (the source's `ActiveSink::size`). -/
def sumLen : List (List Nat) → Nat
  | [] => 0
  | b :: bs => b.length + sumLen bs

/-- Length of the largest record in a list of payloads. -/
def maxLen : List (List Nat) → Nat
  | [] => 0
  | b :: bs => max b.length (maxLen bs)

/-- Insert a file into a list sorted by name (timestamp). -/
def insertByTs (f : Nat × FileData) :
    List (Nat × FileData) → List (Nat × FileData)
  | [] => [f]
  | g :: gs => if f.1 ≤ g.1 then f :: g :: gs else g :: insertByTs f gs

/-- Sort a directory listing by file name, i.e. by the millisecond
timestamp in `{FILE_NAME}.{ms}.gz`: "filename timestamp order". -/
def sortByTs : List (Nat × FileData) → List (Nat × FileData)
  | [] => []
  | f :: fs => insertByTs f (sortByTs fs)

/-! ## Auxiliary instances used by the theorems -/

/-- An initial verifier pass state with list-valued packet writers (the
`&mut Vec<T>` `PacketWriter` instance of verifier.rs lines 320-328):
empty outputs, empty org cache, empty seen-set. -/
def initVerifyState {DS CS BS : Type} (ds : DS) (cs : CS) (bs : BS) :
    VerifyState DS CS BS (List ValidPacket) (List InvalidPacket) :=
  ⟨ds, cs, bs, [], [], [], []⟩

/-- A verifier environment whose packet writers are the infallible
list-append writers of the source's `&mut Vec<T>` instance, with the
other collaborators arbitrary. -/
def mkListEnv {DS CS BS DE CE BE : Type}
    (fetch : CS → Nat → OrgCache → Except CE (Payer × OrgCache × CS))
    (debit : DS → Payer → Nat → Except DE (Bool × DS))
    (burnf : BS → Payer → Nat → Except BE BS)
    (enable : CS → Nat → Except CE CS)
    (disable : CS → Nat → Except CE CS) :
    VerifyEnv DS CS BS (List ValidPacket) (List InvalidPacket) DE CE BE
      Empty Empty where
  fetch_org := fetch
  debit_if_sufficient := debit
  burn := burnf
  enable_org := enable
  disable_org := disable
  write_valid := fun vs p => Except.ok (vs ++ [p])
  write_invalid := fun is2 p => Except.ok (is2 ++ [p])

/-- A concrete environment over `Unit` states in which each collaborator
either succeeds trivially or fails, as selected by the flags; used to
exercise the error-tagging theorems at concrete inputs. -/
def unitFailEnv (ffail dfail bfail vfail ifail efail difail suff : Bool) :
    VerifyEnv Unit Unit Unit Unit Unit Unit Unit Unit Unit Unit where
  fetch_org := fun _ _ cache =>
    if ffail then Except.error () else Except.ok ([], cache, ())
  debit_if_sufficient := fun _ _ _ =>
    if dfail then Except.error () else Except.ok (suff, ())
  burn := fun _ _ _ => if bfail then Except.error () else Except.ok ()
  enable_org := fun _ _ => if efail then Except.error () else Except.ok ()
  disable_org := fun _ _ => if difail then Except.error () else Except.ok ()
  write_valid := fun _ _ => if vfail then Except.error () else Except.ok ()
  write_invalid := fun _ _ => if ifail then Except.error () else Except.ok ()

/-- A sample packet report. -/
def demoReport : PacketReport := ⟨100, 1, [9], 24, [3]⟩

/-- A pass state over `Unit` collaborator states with nothing seen yet. -/
def unitVState : VerifyState Unit Unit Unit Unit Unit :=
  ⟨(), (), (), (), (), [], []⟩

/-- A pass state that has already seen `demoReport`'s packet id. -/
def seenVState : VerifyState Unit Unit Unit Unit Unit :=
  ⟨(), (), (), (), (), [], [demoReport.packetId]⟩

/-- A sink whose active file (5 bytes so far) is about to overflow
`max_size = 8`; used to evaluate the size-rollover path of `write`. -/
def demoOverflowSink : FileSink :=
  { max_size := 8, roll_time := 3, tmp := [(1, ⟨[[9, 9, 9, 9, 9]], false⟩)],
    target := [], uploads := [], deposits := false,
    active_sink := some ⟨5, 1, 1⟩ }

/-- A sink holding an active file opened at time 0 with one 1-byte frame,
`roll_interval = 3`; used to evaluate `maybe_roll` at concrete times. -/
def rollDemoSink : FileSink :=
  { max_size := 100, roll_time := 3, tmp := [(0, ⟨[[7]], false⟩)],
    target := [], uploads := [], deposits := false,
    active_sink := some ⟨1, 0, 0⟩ }

/-- The run-loop invariant of a file sink, relative to a clock bound `c`
(all timestamps seen so far are `< c`) and the payloads `ps` processed so
far: `tmp/` holds exactly the active file (unsealed, named by its open
time, with the sink's size accounting exact and the size-roll bound
maintained); the target directory holds sealed files with strictly
increasing names, all older than the active file; and the frames of the
promoted files followed by those of the active file are exactly `ps`. -/
structure SinkInv (s : FileSink) (c : Nat) (ps : List (List Nat)) : Prop where
  hnone : s.active_sink = none → s.tmp = []
  hsome : ∀ a, s.active_sink = some a →
    ∃ d, s.tmp = [(a.path, d)] ∧ d.sealed = false ∧ a.path = a.time ∧
      a.time < c ∧ a.size = sumLen d.frames ∧
      (sumLen d.frames < s.max_size ∨ ∃ b, d.frames = [b])
  hpair : List.Pairwise (fun f g => f.1 < g.1) s.target
  hbound : ∀ f ∈ s.target, f.1 < c
  hactb : ∀ a, s.active_sink = some a → ∀ f ∈ s.target, f.1 < a.time
  hseal : ∀ f ∈ s.target, f.2.sealed = true
  hQ : ∀ f ∈ s.target, sumLen f.2.frames < s.max_size ∨ ∃ b, f.2.frames = [b]
  hround : concatFrames s.target ++ activeFrames s = ps

/-! ## Helper lemmas: association lists -/

theorem assocLookup_insert {α : Type} (m : List (Nat × α)) (k : Nat) (v : α) :
    assocLookup (assocInsert m k v) k = some v := by
  induction m with
  | nil => simp [assocInsert, assocLookup]
  | cons kv rest ih =>
      obtain ⟨k', v'⟩ := kv
      by_cases h : k' = k
      · simp [assocInsert, assocLookup, h]
      · simp [assocInsert, assocLookup, h, ih]

theorem assocLookup_eq_none {α : Type} (l : List (Nat × α)) (n : Nat)
    (h : ∀ f ∈ l, f.1 ≠ n) : assocLookup l n = none := by
  induction l with
  | nil => rfl
  | cons kv rest ih =>
      have hk : kv.1 ≠ n := h kv (List.mem_cons_self kv rest)
      obtain ⟨k, v⟩ := kv
      simp only [assocLookup, if_neg hk]
      exact ih fun f hf => h f (List.mem_cons_of_mem _ hf)

/-! ## Helper lemmas: `CachedOrgClient` field equations -/

theorem enable_org_clients (c : CachedOrgClient) (oui : Nat) :
    (c.enable_org oui).enabled_clients
      = assocInsert c.enabled_clients oui true := by
  by_cases h : (assocLookup c.enabled_clients oui).getD false <;>
    simp [CachedOrgClient.enable_org, h]

theorem disable_org_clients (c : CachedOrgClient) (oui : Nat) :
    (c.disable_org oui).enabled_clients
      = assocInsert c.enabled_clients oui false := by
  by_cases h : (assocLookup c.enabled_clients oui).getD true <;>
    simp [CachedOrgClient.disable_org, h]

theorem enable_org_rpcs (c : CachedOrgClient) (oui : Nat) :
    (c.enable_org oui).enable_rpcs
      = (if (assocLookup c.enabled_clients oui).getD false then
          c.enable_rpcs else c.enable_rpcs ++ [oui]) ∧
    (c.enable_org oui).disable_rpcs = c.disable_rpcs := by
  by_cases h : (assocLookup c.enabled_clients oui).getD false <;>
    simp [CachedOrgClient.enable_org, h]

theorem disable_org_rpcs (c : CachedOrgClient) (oui : Nat) :
    (c.disable_org oui).disable_rpcs
      = (if (assocLookup c.enabled_clients oui).getD true then
          c.disable_rpcs ++ [oui] else c.disable_rpcs) ∧
    (c.disable_org oui).enable_rpcs = c.enable_rpcs := by
  by_cases h : (assocLookup c.enabled_clients oui).getD true <;>
    simp [CachedOrgClient.disable_org, h]

/-- Once the oui has a flag in the map, every call issues an RPC exactly
on a transition of that flag: the RPC counts grow by the transition
counts started from the current flag value. -/
theorem runCalls_counts (ks : List Bool) (oui : Nat) :
    ∀ (c : CachedOrgClient) (f : Bool),
      assocLookup c.enabled_clients oui = some f →
      (runCalls oui c ks).enable_rpcs.length
          = c.enable_rpcs.length + countFT f ks ∧
      (runCalls oui c ks).disable_rpcs.length
          = c.disable_rpcs.length + countTF f ks := by
  induction ks with
  | nil => intro c f h; simp [runCalls, countFT, countTF]
  | cons k ks ih =>
      intro c f h
      cases k with
      | true =>
          have hcl : assocLookup (c.enable_org oui).enabled_clients oui
              = some true := by
            rw [enable_org_clients]; exact assocLookup_insert _ _ _
          have hih := ih (c.enable_org oui) true hcl
          have hrp := enable_org_rpcs c oui
          simp only [runCalls]
          rw [hih.1, hih.2, hrp.1, hrp.2, h]
          cases f <;> simp [countFT, countTF] <;> try omega
      | false =>
          have hcl : assocLookup (c.disable_org oui).enabled_clients oui
              = some false := by
            rw [disable_org_clients]; exact assocLookup_insert _ _ _
          have hih := ih (c.disable_org oui) false hcl
          have hrp := disable_org_rpcs c oui
          simp only [runCalls]
          rw [hih.1, hih.2, hrp.1, hrp.2, h]
          cases f <;> simp [countFT, countTF] <;> try omega

/-- C5 counterexample: the very first `disable_org` call for an oui the
client has never seen DOES issue a disable RPC (the source defaults the
missing entry to `true` via `or_insert(true)`), contradicting the claim
that the first `disable_org` for an unseen oui emits none. -/
theorem c5_edge_trigger_counterexample :
    (CachedOrgClient.new.disable_org 5).disable_rpcs = [5] ∧
    ¬ (CachedOrgClient.new.disable_org 5).disable_rpcs = [] := by
  decide

/-- C5 (amended): for every sequence of `enable_org` / `disable_org`
calls on one oui starting from a fresh client, the number of enable RPCs
equals the number of false→true transitions of the org's flag (a newly
seen oui counts as `false` for `enable_org`, so the first `enable_org`
always emits an RPC); the number of disable RPCs equals the number of
true→false transitions PLUS one when the very first call is a
`disable_org`, because `disable_org` defaults a newly seen oui's flag to
`true`, so the first `disable_org` for an unseen oui also emits an RPC. -/
theorem c5_edge_trigger_amended (oui : Nat) (ks : List Bool) :
    (runCalls oui CachedOrgClient.new ks).enable_rpcs.length
        = countFT false ks ∧
    (runCalls oui CachedOrgClient.new ks).disable_rpcs.length
        = countTF false ks
          + (match ks with | false :: _ => 1 | _ => 0) := by
  cases ks with
  | nil => simp [runCalls, countFT, countTF, CachedOrgClient.new]
  | cons k ks =>
      cases k with
      | true =>
          have hcl : assocLookup
              (CachedOrgClient.new.enable_org oui).enabled_clients oui
              = some true := by
            rw [enable_org_clients]; exact assocLookup_insert _ _ _
          have hih := runCalls_counts ks oui _ true hcl
          have h1 : (CachedOrgClient.new.enable_org oui).enable_rpcs = [oui] := by
            simp [CachedOrgClient.enable_org, CachedOrgClient.new, assocLookup]
          have h2 : (CachedOrgClient.new.enable_org oui).disable_rpcs = [] := by
            simp [CachedOrgClient.enable_org, CachedOrgClient.new, assocLookup]
          simp only [runCalls]
          rw [hih.1, hih.2, h1, h2]
          simp [countFT, countTF]
      | false =>
          have hcl : assocLookup
              (CachedOrgClient.new.disable_org oui).enabled_clients oui
              = some false := by
            rw [disable_org_clients]; exact assocLookup_insert _ _ _
          have hih := runCalls_counts ks oui _ false hcl
          have h1 : (CachedOrgClient.new.disable_org oui).disable_rpcs = [oui] := by
            simp [CachedOrgClient.disable_org, CachedOrgClient.new, assocLookup]
          have h2 : (CachedOrgClient.new.disable_org oui).enable_rpcs = [] := by
            simp [CachedOrgClient.disable_org, CachedOrgClient.new, assocLookup]
          simp only [runCalls]
          rw [hih.1, hih.2, h1, h2]
          simp [countFT, countTF, Nat.add_comm]

/-! ## C7: the debit amount -/

/-- C7: the debit amount computed by the verifier equals
`max(payload_size, 24)` divided by 24 with floor division; every payload
smaller than 24 bytes costs exactly one unit, and the result is always at
least 1. -/
theorem c7_payload_size_to_dc (p : Nat) :
    payload_size_to_dc p = max p 24 / 24 ∧
    (p < 24 → payload_size_to_dc p = 1) ∧
    1 ≤ payload_size_to_dc p := by
  refine ⟨rfl, ?_, ?_⟩
  · intro h
    have hm : max p 24 = 24 := Nat.max_eq_right (Nat.le_of_lt h)
    simp [payload_size_to_dc, hm]
  · have h24 : 24 ≤ max p 24 := Nat.le_max_right _ _
    have hd := Nat.div_le_div_right (c := 24) h24
    simpa [payload_size_to_dc] using hd

/-- C7 witness: evaluated at the undersize payload 10. -/
theorem c7_payload_size_to_dc_witness :
    (10 : Nat) < 24 ∧ payload_size_to_dc 10 = 1 :=
  ⟨by decide, (c7_payload_size_to_dc 10).2.1 (by decide)⟩

/-! ## C9: idempotence of seal+promote -/

/-- C9: `deposit_sink` is idempotent with respect to the source path: if
no file with the expected name exists in `tmp/`, it returns success
leaving the sink state entirely unchanged — no rename, no uploader
notification. -/
theorem c9_deposit_idempotent (s : FileSink) (p : Nat)
    (h : assocLookup s.tmp p = none) : s.deposit_sink p = s := by
  simp [FileSink.deposit_sink, h]

/-- C9 witness: a fresh sink has no tmp file named 7. -/
theorem c9_deposit_idempotent_witness :
    assocLookup (initSink 10 3 true).tmp 7 = none ∧
    (initSink 10 3 true).deposit_sink 7 = initSink 10 3 true :=
  ⟨rfl, c9_deposit_idempotent (initSink 10 3 true) 7 rfl⟩

/-! ## C10: the "sink not available" branch of `write` is dead -/

theorem openSink_active (s : FileSink) (now : Nat) :
    (s.openSink now).active_sink = some ⟨0, now, now⟩ := rfl

/-- C10: after the initial match of `FileSink::write` (open a sink when
none is active, roll and reopen on size overflow), the active sink is
always present, so `write` always reaches the send branch and never
returns the "sink not available" I/O error. -/
theorem c10_write_available (s : FileSink) (now : Nat) (buf : List Nat) :
    ∃ s' a, s.write now buf = Except.ok s' ∧ s'.active_sink = some a := by
  unfold FileSink.write
  cases hact : s.active_sink with
  | none =>
      simp only [hact, openSink_active]
      exact ⟨_, _, rfl, rfl⟩
  | some a =>
      by_cases hsz : s.max_size ≤ a.size + buf.length
      · simp only [hact, if_pos hsz, openSink_active]
        exact ⟨_, _, rfl, rfl⟩
      · simp only [hact, if_neg hsz]
        exact ⟨_, _, rfl, rfl⟩

/-! ## C3: the rollover condition is inverted in the source -/

/-- C3 (code bug): `maybe_roll` in the source tests
`active.time + roll_time > now`, the inverse of the specified
`opened_at + roll_interval ≤ now`.  On a sink whose active file was
opened at time 0 with `roll_interval = 3`: at `now = 1` the specified
condition `0 + 3 ≤ 1` is false yet the code seals and promotes the file,
and at `now = 5` the specified condition `0 + 3 ≤ 5` holds yet the code
changes nothing. -/
theorem c3_maybe_roll_inverted :
    (¬ (0 + 3 ≤ 1) ∧ (rollDemoSink.maybe_roll 1).active_sink = none ∧
      (rollDemoSink.maybe_roll 1).target = [(0, ⟨[[7]], true⟩)]) ∧
    ((0 + 3 ≤ 5) ∧ rollDemoSink.maybe_roll 5 = rollDemoSink) := by
  decide

/-! ## C1 and C2 counterexamples: clean shutdown does not promote -/

/-- C1 counterexample: send one payload `[5]` at time 1 and shut down
cleanly.  The `run` cleanup (file_sink.rs lines 247-250) only seals the
active file without calling `deposit_sink`, so no file is promoted and
the concatenation of the promoted files' frames is empty, not the input
sequence. -/
theorem c1_roundtrip_counterexample :
    payloadsOf [SinkEvent.msg 1 [5]] = [[5]] ∧
    ¬ (concatFrames (sortByTs
          ((initSink 1000 3 false).run [SinkEvent.msg 1 [5]]).target)
        = payloadsOf [SinkEvent.msg 1 [5]]) := by
  decide

/-- C2 counterexample: after the same clean shutdown, the file that was
active when the loop broke is still in `tmp/` (sealed) and the target
directory is empty, contradicting the claim that `run` returns only
after the active file has been promoted out of `tmp/`. -/
theorem c2_run_counterexample :
    ((initSink 1000 3 false).run [SinkEvent.msg 1 [5]]).target = [] ∧
    ((initSink 1000 3 false).run [SinkEvent.msg 1 [5]]).tmp
      = [(1, ⟨[[5]], true⟩)] := by
  decide

/-! ## Verifier step-shape lemmas -/

/-- A successful `verify_report` step either skips (seen-set unchanged)
or records exactly the report's packet id, which was not yet seen. -/
theorem verify_report_seen {DS CS BS VS IS DE CE BE VE IE : Type}
    (env : VerifyEnv DS CS BS VS IS DE CE BE VE IE)
    (r : PacketReport) (s s' : VerifyState DS CS BS VS IS)
    (h : verify_report env r s = Except.ok s') :
    s'.packets_seen = s.packets_seen ∨
    (r.packetId ∉ s.packets_seen ∧
      s'.packets_seen = r.packetId :: s.packets_seen) := by
  by_cases hmem : r.packetId ∈ s.packets_seen
  · left
    simp only [verify_report, if_pos hmem, Except.ok.injEq] at h
    rw [← h]
  · right
    refine ⟨hmem, ?_⟩
    simp only [verify_report, if_neg hmem] at h
    repeat' split at h
    all_goals
      first
        | exact Except.noConfusion h
        | (simp only [Except.ok.injEq] at h; subst h; rfl)

/-- With list-valued packet writers, a successful `verify_report` step
either changes neither the outputs nor the seen-set, or emits exactly one
output record and records exactly one new packet id. -/
theorem verify_report_outputs {DS CS BS DE CE BE : Type}
    (fetch : CS → Nat → OrgCache → Except CE (Payer × OrgCache × CS))
    (debit : DS → Payer → Nat → Except DE (Bool × DS))
    (burnf : BS → Payer → Nat → Except BE BS)
    (enable : CS → Nat → Except CE CS)
    (disable : CS → Nat → Except CE CS)
    (r : PacketReport)
    (s s' : VerifyState DS CS BS (List ValidPacket) (List InvalidPacket))
    (h : verify_report (mkListEnv fetch debit burnf enable disable) r s
          = Except.ok s') :
    (s'.valid_packets.length + s'.invalid_packets.length
        = s.valid_packets.length + s.invalid_packets.length ∧
      s'.packets_seen.length = s.packets_seen.length) ∨
    (s'.valid_packets.length + s'.invalid_packets.length
        = s.valid_packets.length + s.invalid_packets.length + 1 ∧
      s'.packets_seen.length = s.packets_seen.length + 1) := by
  by_cases hmem : r.packetId ∈ s.packets_seen
  · left
    simp only [verify_report, if_pos hmem, Except.ok.injEq] at h
    rw [← h]
    exact ⟨rfl, rfl⟩
  · simp only [verify_report, mkListEnv, if_neg hmem] at h
    repeat' split at h
    all_goals
      first
        | exact Except.noConfusion h
        | (right
           simp only [Except.ok.injEq] at h
           subst h
           constructor <;> (simp; try omega))

/-- Over a whole pass with list-valued writers, the number of emitted
output records equals the growth of the seen-set. -/
theorem verify_outputs_len {DS CS BS DE CE BE : Type}
    (fetch : CS → Nat → OrgCache → Except CE (Payer × OrgCache × CS))
    (debit : DS → Payer → Nat → Except DE (Bool × DS))
    (burnf : BS → Payer → Nat → Except BE BS)
    (enable : CS → Nat → Except CE CS)
    (disable : CS → Nat → Except CE CS) :
    ∀ (reports : List PacketReport)
      (s s' : VerifyState DS CS BS (List ValidPacket) (List InvalidPacket)),
      verify (mkListEnv fetch debit burnf enable disable) reports s
          = Except.ok s' →
      s'.valid_packets.length + s'.invalid_packets.length
          + s.packets_seen.length
        = s.valid_packets.length + s.invalid_packets.length
          + s'.packets_seen.length := by
  intro reports
  induction reports with
  | nil =>
      intro s s' h
      simp only [verify, Except.ok.injEq] at h
      subst h; rfl
  | cons r rs ih =>
      intro s s' h
      simp only [verify] at h
      cases hstep : verify_report (mkListEnv fetch debit burnf enable disable) r s with
      | error e => rw [hstep] at h; exact Except.noConfusion h
      | ok s1 =>
          rw [hstep] at h
          have h1 := verify_report_outputs fetch debit burnf enable disable r s s1 hstep
          have h2 := ih s1 s' h
          rcases h1 with ⟨ha, hb⟩ | ⟨ha, hb⟩ <;> omega

/-- Over a whole pass (any environment), every seen packet id was either
already seen or is the id of one of the input reports, and the seen-set
stays duplicate-free. -/
theorem verify_seen {DS CS BS VS IS DE CE BE VE IE : Type}
    (env : VerifyEnv DS CS BS VS IS DE CE BE VE IE) :
    ∀ (reports : List PacketReport) (s s' : VerifyState DS CS BS VS IS),
      verify env reports s = Except.ok s' →
      (∀ p ∈ s'.packets_seen,
          p ∈ s.packets_seen ∨ p ∈ reports.map PacketReport.packetId) ∧
      (s.packets_seen.Nodup → s'.packets_seen.Nodup) := by
  intro reports
  induction reports with
  | nil =>
      intro s s' h
      simp only [verify, Except.ok.injEq] at h
      subst h
      exact ⟨fun p hp => Or.inl hp, id⟩
  | cons r rs ih =>
      intro s s' h
      simp only [verify] at h
      cases hstep : verify_report env r s with
      | error e => rw [hstep] at h; exact Except.noConfusion h
      | ok s1 =>
          rw [hstep] at h
          have h1 := verify_report_seen env r s s1 hstep
          have h2 := ih s1 s' h
          rcases h1 with heq | ⟨hnm, heq⟩
          · refine ⟨fun p hp => ?_, fun hnd => ?_⟩
            · rcases (h2.1 p hp) with hin | hin
              · rw [heq] at hin; exact Or.inl hin
              · exact Or.inr (by simp [hin])
            · exact h2.2 (heq ▸ hnd)
          · refine ⟨fun p hp => ?_, fun hnd => ?_⟩
            · rcases (h2.1 p hp) with hin | hin
              · rw [heq, List.mem_cons] at hin
                rcases hin with hin | hin
                · exact Or.inr (by simp [hin])
                · exact Or.inl hin
              · exact Or.inr (by simp [hin])
            · refine h2.2 ?_
              rw [heq]
              exact List.Nodup.cons hnm hnd

/-! ## C6: pass-local deduplication -/

/-- C6: within a single verifier pass each unique packet identity
`(gateway_timestamp_ms, oui, payload_hash)` is classified at most once.
First conjunct: a report whose identity is already in the pass-local
seen-set is skipped silently — the step succeeds returning the state
entirely unchanged (collaborator states included, for every possible
collaborator implementation), so no org fetch, debit check, burn, output
record, or enable/disable call takes place.  Second conjunct: with the
source's `Vec`-backed packet writers, a successful pass starting from an
empty seen-set emits at most one output record per distinct packet id in
the input. -/
theorem c6_verifier_dedup :
    (∀ (DS CS BS VS IS DE CE BE VE IE : Type)
        (env : VerifyEnv DS CS BS VS IS DE CE BE VE IE)
        (r : PacketReport) (s : VerifyState DS CS BS VS IS),
        r.packetId ∈ s.packets_seen → verify_report env r s = Except.ok s) ∧
    (∀ (DS CS BS DE CE BE : Type)
        (fetch : CS → Nat → OrgCache → Except CE (Payer × OrgCache × CS))
        (debit : DS → Payer → Nat → Except DE (Bool × DS))
        (burnf : BS → Payer → Nat → Except BE BS)
        (enable : CS → Nat → Except CE CS)
        (disable : CS → Nat → Except CE CS)
        (ds : DS) (cs : CS) (bs : BS) (reports : List PacketReport)
        (s' : VerifyState DS CS BS (List ValidPacket) (List InvalidPacket)),
        verify (mkListEnv fetch debit burnf enable disable) reports
            (initVerifyState ds cs bs) = Except.ok s' →
        s'.valid_packets.length + s'.invalid_packets.length
          ≤ (reports.map PacketReport.packetId).dedup.length) := by
  constructor
  · intro DS CS BS VS IS DE CE BE VE IE env r s hmem
    simp [verify_report, hmem]
  · intro DS CS BS DE CE BE fetch debit burnf enable disable ds cs bs
      reports s' h
    have hlen := verify_outputs_len fetch debit burnf enable disable reports
      (initVerifyState ds cs bs) s' h
    have hseen := verify_seen (mkListEnv fetch debit burnf enable disable)
      reports (initVerifyState ds cs bs) s' h
    have hsub : ∀ p ∈ s'.packets_seen,
        p ∈ reports.map PacketReport.packetId := by
      intro p hp
      rcases hseen.1 p hp with hin | hin
      · exact absurd hin (by simp [initVerifyState])
      · exact hin
    have hnd : s'.packets_seen.Nodup :=
      hseen.2 (by simp [initVerifyState])
    have hcard : s'.packets_seen.length
        ≤ (reports.map PacketReport.packetId).dedup.length := by
      have h1 : s'.packets_seen.toFinset.card = s'.packets_seen.length :=
        List.toFinset_card_of_nodup hnd
      have h2 : s'.packets_seen.toFinset
          ⊆ (reports.map PacketReport.packetId).toFinset := by
        intro p hp
        rw [List.mem_toFinset] at hp ⊢
        exact hsub p hp
      have h3 := Finset.card_le_card h2
      rw [h1, List.card_toFinset] at h3
      exact h3
    simp only [initVerifyState] at hlen
    simp only [List.length_nil] at hlen
    omega

/-- C6 witness: the skip conjunct applied to a duplicate report over the
trivial environment, and the count bound applied to a two-report input
with a duplicate id. -/
theorem c6_verifier_dedup_witness :
    (demoReport.packetId ∈ seenVState.packets_seen ∧
      verify_report (unitFailEnv false false false false false false false true)
          demoReport seenVState = Except.ok seenVState) ∧
    (verify (@mkListEnv Unit Unit Unit Unit Unit Unit
          (fun _ _ cache => Except.ok (([] : Payer), cache, ()))
          (fun _ _ _ => Except.ok (true, ()))
          (fun _ _ _ => Except.ok ())
          (fun _ _ => Except.ok ())
          (fun _ _ => Except.ok ()))
        [demoReport, demoReport] (initVerifyState () () ())
        = Except.ok
          ⟨(), (), (), [⟨24, [3], [9]⟩], [], [], [demoReport.packetId]⟩ ∧
      (1 : Nat) + 0
        ≤ (([demoReport, demoReport].map PacketReport.packetId)).dedup.length) := by
  constructor
  · exact ⟨by decide, c6_verifier_dedup.1 Unit Unit Unit Unit Unit Unit Unit
      Unit Unit Unit _ demoReport seenVState (by decide)⟩
  · constructor
    · rfl
    · exact c6_verifier_dedup.2 Unit Unit Unit Unit Unit Unit
        (fun _ _ cache => Except.ok (([] : Payer), cache, ()))
        (fun _ _ _ => Except.ok (true, ()))
        (fun _ _ _ => Except.ok ())
        (fun _ _ => Except.ok ())
        (fun _ _ => Except.ok ())
        () () () [demoReport, demoReport]
        ⟨(), (), (), [⟨24, [3], [9]⟩], [], [], [demoReport.packetId]⟩
        (by rfl)

/-! ## C8: fail-fast with origin-tagged errors -/

/-- C8: the verifier is fail-fast and tags every propagated error with
the collaborator that produced it.  Conjunct 1: a failing step terminates
the whole pass with that very error (no later report is processed).
Conjuncts 2-8, following the source's call order on a not-yet-seen
report: a `fetch_org` error propagates as `ConfigError`; a
`debit_if_sufficient` error as `DebitError`; on the sufficient path a
`burn` error propagates as `BurnError`, a valid-writer error as
`ValidPacketWriterError`, and an `enable_org` error as `ConfigError`; on
the insufficient path an invalid-writer error propagates as
`InvalidPacketWriterError` and a `disable_org` error as `ConfigError`. -/
theorem c8_fail_fast :
    (∀ (DS CS BS VS IS DE CE BE VE IE : Type)
        (env : VerifyEnv DS CS BS VS IS DE CE BE VE IE) r rest s e,
        verify_report env r s = Except.error e →
        verify env (r :: rest) s = Except.error e) ∧
    (∀ (DS CS BS VS IS DE CE BE VE IE : Type)
        (env : VerifyEnv DS CS BS VS IS DE CE BE VE IE) r
        (s : VerifyState DS CS BS VS IS) ce,
        r.packetId ∉ s.packets_seen →
        env.fetch_org s.config_server r.oui s.org_cache = Except.error ce →
        verify_report env r s
          = Except.error (VerificationError.ConfigError ce)) ∧
    (∀ (DS CS BS VS IS DE CE BE VE IE : Type)
        (env : VerifyEnv DS CS BS VS IS DE CE BE VE IE) r
        (s : VerifyState DS CS BS VS IS) payer cache cs de,
        r.packetId ∉ s.packets_seen →
        env.fetch_org s.config_server r.oui s.org_cache
          = Except.ok (payer, cache, cs) →
        env.debit_if_sufficient s.debiter payer
            (payload_size_to_dc r.payload_size) = Except.error de →
        verify_report env r s
          = Except.error (VerificationError.DebitError de)) ∧
    (∀ (DS CS BS VS IS DE CE BE VE IE : Type)
        (env : VerifyEnv DS CS BS VS IS DE CE BE VE IE) r
        (s : VerifyState DS CS BS VS IS) payer cache cs ds be,
        r.packetId ∉ s.packets_seen →
        env.fetch_org s.config_server r.oui s.org_cache
          = Except.ok (payer, cache, cs) →
        env.debit_if_sufficient s.debiter payer
            (payload_size_to_dc r.payload_size) = Except.ok (true, ds) →
        env.burn s.burner payer (payload_size_to_dc r.payload_size)
          = Except.error be →
        verify_report env r s
          = Except.error (VerificationError.BurnError be)) ∧
    (∀ (DS CS BS VS IS DE CE BE VE IE : Type)
        (env : VerifyEnv DS CS BS VS IS DE CE BE VE IE) r
        (s : VerifyState DS CS BS VS IS) payer cache cs ds bs ve,
        r.packetId ∉ s.packets_seen →
        env.fetch_org s.config_server r.oui s.org_cache
          = Except.ok (payer, cache, cs) →
        env.debit_if_sufficient s.debiter payer
            (payload_size_to_dc r.payload_size) = Except.ok (true, ds) →
        env.burn s.burner payer (payload_size_to_dc r.payload_size)
          = Except.ok bs →
        env.write_valid s.valid_packets
            ⟨r.payload_size, r.gateway, r.payload_hash⟩ = Except.error ve →
        verify_report env r s
          = Except.error (VerificationError.ValidPacketWriterError ve)) ∧
    (∀ (DS CS BS VS IS DE CE BE VE IE : Type)
        (env : VerifyEnv DS CS BS VS IS DE CE BE VE IE) r
        (s : VerifyState DS CS BS VS IS) payer cache cs ds bs vs ce,
        r.packetId ∉ s.packets_seen →
        env.fetch_org s.config_server r.oui s.org_cache
          = Except.ok (payer, cache, cs) →
        env.debit_if_sufficient s.debiter payer
            (payload_size_to_dc r.payload_size) = Except.ok (true, ds) →
        env.burn s.burner payer (payload_size_to_dc r.payload_size)
          = Except.ok bs →
        env.write_valid s.valid_packets
            ⟨r.payload_size, r.gateway, r.payload_hash⟩ = Except.ok vs →
        env.enable_org cs r.oui = Except.error ce →
        verify_report env r s
          = Except.error (VerificationError.ConfigError ce)) ∧
    (∀ (DS CS BS VS IS DE CE BE VE IE : Type)
        (env : VerifyEnv DS CS BS VS IS DE CE BE VE IE) r
        (s : VerifyState DS CS BS VS IS) payer cache cs ds ie,
        r.packetId ∉ s.packets_seen →
        env.fetch_org s.config_server r.oui s.org_cache
          = Except.ok (payer, cache, cs) →
        env.debit_if_sufficient s.debiter payer
            (payload_size_to_dc r.payload_size) = Except.ok (false, ds) →
        env.write_invalid s.invalid_packets
            ⟨r.payload_size, r.gateway, r.payload_hash⟩ = Except.error ie →
        verify_report env r s
          = Except.error (VerificationError.InvalidPacketWriterError ie)) ∧
    (∀ (DS CS BS VS IS DE CE BE VE IE : Type)
        (env : VerifyEnv DS CS BS VS IS DE CE BE VE IE) r
        (s : VerifyState DS CS BS VS IS) payer cache cs ds is2 ce,
        r.packetId ∉ s.packets_seen →
        env.fetch_org s.config_server r.oui s.org_cache
          = Except.ok (payer, cache, cs) →
        env.debit_if_sufficient s.debiter payer
            (payload_size_to_dc r.payload_size) = Except.ok (false, ds) →
        env.write_invalid s.invalid_packets
            ⟨r.payload_size, r.gateway, r.payload_hash⟩ = Except.ok is2 →
        env.disable_org cs r.oui = Except.error ce →
        verify_report env r s
          = Except.error (VerificationError.ConfigError ce)) := by
  refine ⟨?_, ?_, ?_, ?_, ?_, ?_, ?_, ?_⟩
  · intro DS CS BS VS IS DE CE BE VE IE env r rest s e h
    simp [verify, h]
  · intro DS CS BS VS IS DE CE BE VE IE env r s ce hmem hf
    simp [verify_report, if_neg hmem, hf]
  · intro DS CS BS VS IS DE CE BE VE IE env r s payer cache cs de hmem hf hd
    simp [verify_report, if_neg hmem, hf, hd]
  · intro DS CS BS VS IS DE CE BE VE IE env r s payer cache cs ds be hmem hf
      hd hb
    simp [verify_report, if_neg hmem, hf, hd, hb]
  · intro DS CS BS VS IS DE CE BE VE IE env r s payer cache cs ds bs ve hmem
      hf hd hb hv
    simp [verify_report, if_neg hmem, hf, hd, hb, hv]
  · intro DS CS BS VS IS DE CE BE VE IE env r s payer cache cs ds bs vs ce
      hmem hf hd hb hv he
    simp [verify_report, if_neg hmem, hf, hd, hb, hv, he]
  · intro DS CS BS VS IS DE CE BE VE IE env r s payer cache cs ds ie hmem hf
      hd hi
    simp [verify_report, if_neg hmem, hf, hd, hi]
  · intro DS CS BS VS IS DE CE BE VE IE env r s payer cache cs ds is2 ce
      hmem hf hd hi hdis
    simp [verify_report, if_neg hmem, hf, hd, hi, hdis]

/-- C8 witness: each conjunct applied to a concrete one-failure
environment over `Unit` states and the sample report. -/
theorem c8_fail_fast_witness :
    (verify_report (unitFailEnv true false false false false false false true)
        demoReport unitVState
        = Except.error (VerificationError.ConfigError ()) ∧
      verify (unitFailEnv true false false false false false false true)
        [demoReport, demoReport] unitVState
        = Except.error (VerificationError.ConfigError ())) ∧
    (verify_report (unitFailEnv true false false false false false false true)
        demoReport unitVState
        = Except.error (VerificationError.ConfigError ())) ∧
    (verify_report (unitFailEnv false true false false false false false true)
        demoReport unitVState
        = Except.error (VerificationError.DebitError ())) ∧
    (verify_report (unitFailEnv false false true false false false false true)
        demoReport unitVState
        = Except.error (VerificationError.BurnError ())) ∧
    (verify_report (unitFailEnv false false false true false false false true)
        demoReport unitVState
        = Except.error (VerificationError.ValidPacketWriterError ())) ∧
    (verify_report (unitFailEnv false false false false false true false true)
        demoReport unitVState
        = Except.error (VerificationError.ConfigError ())) ∧
    (verify_report (unitFailEnv false false false false true false false false)
        demoReport unitVState
        = Except.error (VerificationError.InvalidPacketWriterError ())) ∧
    (verify_report (unitFailEnv false false false false false false true false)
        demoReport unitVState
        = Except.error (VerificationError.ConfigError ())) :=
  ⟨⟨c8_fail_fast.2.1 Unit Unit Unit Unit Unit Unit Unit Unit Unit Unit
      (unitFailEnv true false false false false false false true) demoReport
      unitVState () (by decide) rfl,
    c8_fail_fast.1 Unit Unit Unit Unit Unit Unit Unit Unit Unit Unit
      (unitFailEnv true false false false false false false true) demoReport
      [demoReport] unitVState (VerificationError.ConfigError ()) (by rfl)⟩,
   c8_fail_fast.2.1 Unit Unit Unit Unit Unit Unit Unit Unit Unit Unit
      (unitFailEnv true false false false false false false true) demoReport
      unitVState () (by decide) rfl,
   c8_fail_fast.2.2.1 Unit Unit Unit Unit Unit Unit Unit Unit Unit Unit
      (unitFailEnv false true false false false false false true) demoReport
      unitVState [] [] () () (by decide) rfl rfl,
   c8_fail_fast.2.2.2.1 Unit Unit Unit Unit Unit Unit Unit Unit Unit Unit
      (unitFailEnv false false true false false false false true) demoReport
      unitVState [] [] () () () (by decide) rfl rfl rfl,
   c8_fail_fast.2.2.2.2.1 Unit Unit Unit Unit Unit Unit Unit Unit Unit Unit
      (unitFailEnv false false false true false false false true) demoReport
      unitVState [] [] () () () () (by decide) rfl rfl rfl rfl,
   c8_fail_fast.2.2.2.2.2.1 Unit Unit Unit Unit Unit Unit Unit Unit Unit Unit
      (unitFailEnv false false false false false true false true) demoReport
      unitVState [] [] () () () () () (by decide) rfl rfl rfl rfl rfl,
   c8_fail_fast.2.2.2.2.2.2.1 Unit Unit Unit Unit Unit Unit Unit Unit Unit
      Unit (unitFailEnv false false false false true false false false)
      demoReport unitVState [] [] () () () (by decide) rfl rfl rfl,
   c8_fail_fast.2.2.2.2.2.2.2 Unit Unit Unit Unit Unit Unit Unit Unit Unit
      Unit (unitFailEnv false false false false false false true false)
      demoReport unitVState [] [] () () () () (by decide) rfl rfl rfl rfl⟩

/-! ## Helper lemmas: frames, sizes, sorting -/

theorem concatFrames_append (l1 l2 : List (Nat × FileData)) :
    concatFrames (l1 ++ l2) = concatFrames l1 ++ concatFrames l2 := by
  induction l1 with
  | nil => rfl
  | cons f fs ih => simp [concatFrames, ih]

theorem sumLen_append (l : List (List Nat)) (b : List Nat) :
    sumLen (l ++ [b]) = sumLen l + b.length := by
  induction l with
  | nil => simp [sumLen]
  | cons x xs ih => simp [sumLen, ih]; omega

theorem mem_concatFrames {l : List (Nat × FileData)} {f : Nat × FileData}
    {b : List Nat} (hf : f ∈ l) (hb : b ∈ f.2.frames) :
    b ∈ concatFrames l := by
  induction l with
  | nil => cases hf
  | cons g gs ih =>
      rcases List.mem_cons.mp hf with h | h
      · subst h; exact List.mem_append_left _ hb
      · exact List.mem_append_right _ (ih h)

theorem length_le_maxLen {l : List (List Nat)} {b : List Nat} (h : b ∈ l) :
    b.length ≤ maxLen l := by
  induction l with
  | nil => cases h
  | cons x xs ih =>
      rcases List.mem_cons.mp h with h | h
      · subst h; exact Nat.le_max_left _ _
      · exact le_trans (ih h) (Nat.le_max_right _ _)

theorem sortByTs_eq_self {l : List (Nat × FileData)}
    (h : List.Pairwise (fun f g => f.1 < g.1) l) : sortByTs l = l := by
  induction l with
  | nil => rfl
  | cons f fs ih =>
      obtain ⟨h1, h2⟩ := List.pairwise_cons.mp h
      simp only [sortByTs, ih h2]
      cases fs with
      | nil => rfl
      | cons g gs =>
          have hle : f.1 ≤ g.1 := le_of_lt (h1 g (by simp))
          simp [insertByTs, hle]

theorem activeFrames_none {s : FileSink} (h : s.active_sink = none) :
    activeFrames s = [] := by
  simp [activeFrames, h]

theorem activeFrames_some {s : FileSink} {a : ActiveSink} {d : FileData}
    (h : s.active_sink = some a) (ht : assocLookup s.tmp a.path = some d) :
    activeFrames s = d.frames := by
  simp [activeFrames, h, ht]

/-! ## Field-shape lemmas for the sink operations -/

/-- Sealing then depositing the active file: `tmp/` empties, the sealed
file lands at the end of the target directory, everything else but the
uploader notifications is untouched. -/
theorem seal_deposit_shape (s : FileSink) (a : ActiveSink) (d : FileData)
    (htmp : s.tmp = [(a.path, d)]) :
    ∃ u, (shutdownActive s a.path).deposit_sink a.path
      = { s with
          tmp := []
          target := s.target ++ [(a.path, ⟨d.frames, true⟩)]
          uploads := u } := by
  by_cases hdep : s.deposits
  · refine ⟨s.uploads ++ [a.path], ?_⟩
    simp [shutdownActive, FileSink.deposit_sink, sealFile, htmp, eraseFile,
      assocLookup, hdep]
  · refine ⟨s.uploads, ?_⟩
    simp [shutdownActive, FileSink.deposit_sink, sealFile, htmp, eraseFile,
      assocLookup, hdep]

/-- `write` when no sink is active: open a fresh file named by the clock
and put the single frame in it. -/
theorem write_fresh_eq (s : FileSink) (t : Nat) (buf : List Nat)
    (hact : s.active_sink = none) (htmp : s.tmp = []) :
    s.write t buf = Except.ok
      { s with
        tmp := [(t, ⟨[buf], false⟩)]
        active_sink := some ⟨buf.length, t, t⟩ } := by
  simp [FileSink.write, hact, FileSink.openSink, htmp, appendFrame]

/-- `write` when the active file stays under `max_size`: append the frame
to it and grow the size accounting. -/
theorem write_append_eq (s : FileSink) (a : ActiveSink) (d : FileData)
    (t : Nat) (buf : List Nat) (hact : s.active_sink = some a)
    (htmp : s.tmp = [(a.path, d)])
    (hsz : ¬ s.max_size ≤ a.size + buf.length) :
    s.write t buf = Except.ok
      { s with
        tmp := [(a.path, { d with frames := d.frames ++ [buf] })]
        active_sink := some { a with size := a.size + buf.length } } := by
  simp [FileSink.write, hact, hsz, htmp, appendFrame]

/-- `write` on size overflow: the current file is sealed and promoted and
a fresh file holding only the new frame is opened, all before the frame
is accounted. -/
theorem write_overflow_eq (s : FileSink) (a : ActiveSink) (d : FileData)
    (t : Nat) (buf : List Nat) (hact : s.active_sink = some a)
    (htmp : s.tmp = [(a.path, d)])
    (hsz : s.max_size ≤ a.size + buf.length) :
    ∃ u, s.write t buf = Except.ok
      { s with
        tmp := [(t, ⟨[buf], false⟩)]
        target := s.target ++ [(a.path, ⟨d.frames, true⟩)]
        uploads := u
        active_sink := some ⟨buf.length, t, t⟩ } := by
  obtain ⟨u, hsd⟩ := seal_deposit_shape s a d htmp
  refine ⟨u, ?_⟩
  simp [FileSink.write, hact, hsz, hsd, FileSink.openSink, appendFrame]

/-! ## Invariant preservation -/

theorem SinkInv.mono {s : FileSink} {c c' : Nat} {ps : List (List Nat)}
    (h : SinkInv s c ps) (hcc : c ≤ c') : SinkInv s c' ps where
  hnone := h.hnone
  hsome := fun a ha => by
    obtain ⟨d, h1, h2, h3, h4, h5, h6⟩ := h.hsome a ha
    exact ⟨d, h1, h2, h3, lt_of_lt_of_le h4 hcc, h5, h6⟩
  hpair := h.hpair
  hbound := fun f hf => lt_of_lt_of_le (h.hbound f hf) hcc
  hactb := h.hactb
  hseal := h.hseal
  hQ := h.hQ
  hround := h.hround

theorem initSink_inv (ms rt : Nat) (dep : Bool) :
    SinkInv (initSink ms rt dep) 0 [] where
  hnone := fun _ => rfl
  hsome := fun a ha => absurd ha (by simp [initSink])
  hpair := List.Pairwise.nil
  hbound := fun f hf => absurd hf (by simp [initSink])
  hactb := fun a ha => absurd ha (by simp [initSink])
  hseal := fun f hf => absurd hf (by simp [initSink])
  hQ := fun f hf => absurd hf (by simp [initSink])
  hround := rfl

/-- `maybe_roll` preserves the invariant, whichever way its (inverted)
condition goes. -/
theorem maybe_roll_inv {s : FileSink} {c : Nat} {ps : List (List Nat)}
    (h : SinkInv s c ps) {t : Nat} (hct : c ≤ t) :
    SinkInv (s.maybe_roll t) (t + 1) ps := by
  cases hact : s.active_sink with
  | none =>
      have he : s.maybe_roll t = s := by simp [FileSink.maybe_roll, hact]
      rw [he]; exact h.mono (by omega)
  | some a =>
      obtain ⟨d, htmp, hdseal, hpath, htime, hsizea, hQa⟩ := h.hsome a hact
      by_cases hcond : a.time + s.roll_time > t
      · obtain ⟨u, hsd⟩ := seal_deposit_shape s a d htmp
        have he : s.maybe_roll t
            = { s with
                tmp := []
                target := s.target ++ [(a.path, ⟨d.frames, true⟩)]
                uploads := u
                active_sink := none } := by
          simp [FileSink.maybe_roll, hact, hcond, hsd]
        have hlk : assocLookup s.tmp a.path = some d := by
          simp [htmp, assocLookup]
        have hround0 : concatFrames s.target ++ d.frames = ps := by
          have := h.hround
          rwa [activeFrames_some hact hlk] at this
        rw [he]
        refine
          { hnone := fun _ => rfl
            hsome := fun a' ha' => absurd ha' (by simp)
            hpair := ?_
            hbound := ?_
            hactb := fun a' ha' => absurd ha' (by simp)
            hseal := ?_
            hQ := ?_
            hround := ?_ }
        · rw [List.pairwise_append]
          refine ⟨h.hpair, List.pairwise_singleton _ _, ?_⟩
          intro x hx y hy
          simp only [List.mem_singleton] at hy
          subst hy
          have := h.hactb a hact x hx
          omega
        · intro f hf
          rcases List.mem_append.mp hf with hf | hf
          · have := h.hbound f hf; omega
          · simp only [List.mem_singleton] at hf
            subst hf
            simp only []
            omega
        · intro f hf
          rcases List.mem_append.mp hf with hf | hf
          · exact h.hseal f hf
          · simp only [List.mem_singleton] at hf; subst hf; rfl
        · intro f hf
          rcases List.mem_append.mp hf with hf | hf
          · exact h.hQ f hf
          · simp only [List.mem_singleton] at hf; subst hf; exact hQa
        · show concatFrames (s.target ++ [(a.path, ⟨d.frames, true⟩)])
              ++ activeFrames _ = ps
          rw [activeFrames_none rfl, concatFrames_append]
          simpa [concatFrames] using hround0
      · have he : s.maybe_roll t = s := by
          simp [FileSink.maybe_roll, hact, hcond]
        rw [he]; exact h.mono (by omega)

/-- `write` always succeeds under the invariant and preserves it with the
new payload appended to the processed sequence. -/
theorem write_inv {s : FileSink} {c : Nat} {ps : List (List Nat)}
    (h : SinkInv s c ps) {t : Nat} (hct : c ≤ t) (buf : List Nat) :
    ∃ s', s.write t buf = Except.ok s' ∧ SinkInv s' (t + 1) (ps ++ [buf]) := by
  cases hact : s.active_sink with
  | none =>
      have htmp0 : s.tmp = [] := h.hnone hact
      have hround0 : concatFrames s.target = ps := by
        have := h.hround
        rwa [activeFrames_none hact, List.append_nil] at this
      refine ⟨_, write_fresh_eq s t buf hact htmp0, ?_⟩
      refine
        { hnone := fun hn => absurd hn (by simp)
          hsome := ?_
          hpair := h.hpair
          hbound := fun f hf => by have := h.hbound f hf; omega
          hactb := ?_
          hseal := h.hseal
          hQ := h.hQ
          hround := ?_ }
      · intro a' ha'
        simp only [Option.some.injEq] at ha'
        subst ha'
        exact ⟨⟨[buf], false⟩, rfl, rfl, rfl, Nat.lt_succ_self t,
          by simp [sumLen], Or.inr ⟨buf, rfl⟩⟩
      · intro a' ha' f hf
        simp only [Option.some.injEq] at ha'
        subst ha'
        show f.1 < t
        have := h.hbound f hf
        omega
      · show concatFrames s.target ++ activeFrames _ = ps ++ [buf]
        rw [hround0]
        congr 1
        simp [activeFrames, assocLookup]
  | some a =>
      obtain ⟨d, htmp, hdseal, hpath, htime, hsizea, hQa⟩ := h.hsome a hact
      have hlk : assocLookup s.tmp a.path = some d := by
        simp [htmp, assocLookup]
      have hround0 : concatFrames s.target ++ d.frames = ps := by
        have := h.hround
        rwa [activeFrames_some hact hlk] at this
      by_cases hsz : s.max_size ≤ a.size + buf.length
      · obtain ⟨u, hw⟩ := write_overflow_eq s a d t buf hact htmp hsz
        refine ⟨_, hw, ?_⟩
        refine
          { hnone := fun hn => absurd hn (by simp)
            hsome := ?_
            hpair := ?_
            hbound := ?_
            hactb := ?_
            hseal := ?_
            hQ := ?_
            hround := ?_ }
        · intro a' ha'
          simp only [Option.some.injEq] at ha'
          subst ha'
          exact ⟨⟨[buf], false⟩, rfl, rfl, rfl, Nat.lt_succ_self t,
            by simp [sumLen], Or.inr ⟨buf, rfl⟩⟩
        · show List.Pairwise _ (s.target ++ [(a.path, ⟨d.frames, true⟩)])
          rw [List.pairwise_append]
          refine ⟨h.hpair, List.pairwise_singleton _ _, ?_⟩
          intro x hx y hy
          simp only [List.mem_singleton] at hy
          subst hy
          have := h.hactb a hact x hx
          omega
        · intro f hf
          replace hf : f ∈ s.target ++ [(a.path, ⟨d.frames, true⟩)] := hf
          rcases List.mem_append.mp hf with hf | hf
          · have := h.hbound f hf; omega
          · simp only [List.mem_singleton] at hf
            subst hf
            show a.path < t + 1
            omega
        · intro a' ha' f hf
          simp only [Option.some.injEq] at ha'
          subst ha'
          show f.1 < t
          replace hf : f ∈ s.target ++ [(a.path, ⟨d.frames, true⟩)] := hf
          rcases List.mem_append.mp hf with hf | hf
          · have := h.hbound f hf
            omega
          · simp only [List.mem_singleton] at hf
            subst hf
            show a.path < t
            omega
        · intro f hf
          replace hf : f ∈ s.target ++ [(a.path, ⟨d.frames, true⟩)] := hf
          rcases List.mem_append.mp hf with hf | hf
          · exact h.hseal f hf
          · simp only [List.mem_singleton] at hf; subst hf; rfl
        · intro f hf
          replace hf : f ∈ s.target ++ [(a.path, ⟨d.frames, true⟩)] := hf
          rcases List.mem_append.mp hf with hf | hf
          · exact h.hQ f hf
          · simp only [List.mem_singleton] at hf; subst hf; exact hQa
        · show concatFrames (s.target ++ [(a.path, ⟨d.frames, true⟩)])
              ++ activeFrames _ = ps ++ [buf]
          rw [concatFrames_append]
          have hframes : activeFrames
              { s with
                tmp := [(t, (⟨[buf], false⟩ : FileData))]
                target := s.target ++ [(a.path, ⟨d.frames, true⟩)]
                uploads := u
                active_sink := some ⟨buf.length, t, t⟩ } = [buf] := by
            simp [activeFrames, assocLookup]
          rw [hframes, ← hround0]
          simp [concatFrames]
      · refine ⟨_, write_append_eq s a d t buf hact htmp hsz, ?_⟩
        refine
          { hnone := fun hn => absurd hn (by simp)
            hsome := ?_
            hpair := h.hpair
            hbound := fun f hf => by have := h.hbound f hf; omega
            hactb := ?_
            hseal := h.hseal
            hQ := h.hQ
            hround := ?_ }
        · intro a' ha'
          simp only [Option.some.injEq] at ha'
          subst ha'
          refine ⟨{ d with frames := d.frames ++ [buf] }, rfl, hdseal, hpath,
            ?_, ?_, ?_⟩
          · show a.time < t + 1
            omega
          · show a.size + buf.length = sumLen (d.frames ++ [buf])
            rw [sumLen_append]
            omega
          · left
            show sumLen (d.frames ++ [buf]) < s.max_size
            rw [sumLen_append]
            omega
        · intro a' ha' f hf
          simp only [Option.some.injEq] at ha'
          subst ha'
          show f.1 < a.time
          exact h.hactb a hact f hf
        · show concatFrames s.target ++ activeFrames _ = ps ++ [buf]
          have hframes : activeFrames
              { s with
                tmp := [(a.path, { d with frames := d.frames ++ [buf] })]
                active_sink := some { a with size := a.size + buf.length } }
              = d.frames ++ [buf] := by
            simp [activeFrames, assocLookup]
          rw [hframes, ← hround0]
          simp


/-! ## Parameter preservation and the run-level invariant -/

theorem deposit_sink_max (s : FileSink) (p : Nat) :
    (s.deposit_sink p).max_size = s.max_size := by
  cases hl : assocLookup s.tmp p with
  | none => simp [FileSink.deposit_sink, hl]
  | some d =>
      by_cases hd : s.deposits <;> simp [FileSink.deposit_sink, hl, hd]

theorem maybe_roll_max (s : FileSink) (t : Nat) :
    (s.maybe_roll t).max_size = s.max_size := by
  cases hact : s.active_sink with
  | none => simp [FileSink.maybe_roll, hact]
  | some a =>
      by_cases hcond : a.time + s.roll_time > t
      · simp [FileSink.maybe_roll, hact, hcond, deposit_sink_max,
          shutdownActive]
      · simp [FileSink.maybe_roll, hact, hcond]

theorem write_max (s : FileSink) (t : Nat) (buf : List Nat) (s' : FileSink)
    (h : s.write t buf = Except.ok s') : s'.max_size = s.max_size := by
  simp only [FileSink.write] at h
  repeat' split at h
  all_goals
    first
      | exact Except.noConfusion h
      | (simp only [Except.ok.injEq] at h
         subst h
         simp [FileSink.openSink, deposit_sink_max, shutdownActive])

theorem stepEvent_max (s : FileSink) (e : SinkEvent) :
    (stepEvent s e).max_size = s.max_size := by
  cases e with
  | tick t => exact maybe_roll_max s t
  | msg t buf =>
      cases hw : s.write t buf with
      | ok s' =>
          have := write_max s t buf s' hw
          simp [stepEvent, hw, this]
      | error err => simp [stepEvent, hw]

theorem runLoop_max (events : List SinkEvent) :
    ∀ s : FileSink, (runLoop s events).max_size = s.max_size := by
  induction events with
  | nil => intro s; rfl
  | cons e es ih =>
      intro s
      show (runLoop (stepEvent s e) es).max_size = s.max_size
      rw [ih (stepEvent s e), stepEvent_max]

/-- The loop preserves the invariant across any schedule of strictly
increasing event times, accumulating exactly the message payloads. -/
theorem runLoop_inv (events : List SinkEvent) :
    ∀ (s : FileSink) (c : Nat) (ps : List (List Nat)),
      SinkInv s c ps → timesIncreasing c events = true →
      ∃ c', SinkInv (runLoop s events) c' (ps ++ payloadsOf events) := by
  induction events with
  | nil =>
      intro s c ps h _
      exact ⟨c, by simpa [payloadsOf] using h⟩
  | cons e es ih =>
      intro s c ps h ht
      simp only [timesIncreasing, Bool.and_eq_true, decide_eq_true_eq] at ht
      obtain ⟨hce, hts⟩ := ht
      cases e with
      | tick t =>
          simp only [eventTime] at hce hts
          have h1 := maybe_roll_inv h hce
          have h2 := ih (s.maybe_roll t) (t + 1) ps h1 hts
          simpa [runLoop, stepEvent, payloadsOf] using h2
      | msg t buf =>
          simp only [eventTime] at hce hts
          obtain ⟨s', hw, h1⟩ := write_inv h hce buf
          obtain ⟨c', hc'⟩ := ih s' (t + 1) (ps ++ [buf]) h1 hts
          refine ⟨c', ?_⟩
          have hse : stepEvent s (SinkEvent.msg t buf) = s' := by
            simp [stepEvent, hw]
          show SinkInv (runLoop (stepEvent s (SinkEvent.msg t buf)) es) c' _
          rw [hse]
          simpa [payloadsOf] using hc'

/-- What the post-loop cleanup of `run` leaves behind: no active slot,
the target directory untouched, the active file (if any) sealed in place
in `tmp/` and absent from the target directory, and the round-trip
content split between the promoted files and `tmp/`. -/
theorem finishRun_shape {s : FileSink} {c : Nat} {ps : List (List Nat)}
    (h : SinkInv s c ps) :
    (finishRun s).active_sink = none ∧
    (finishRun s).target = s.target ∧
    concatFrames (finishRun s).target ++ concatFrames (finishRun s).tmp
      = ps ∧
    (∀ f ∈ (finishRun s).tmp, f.2.sealed = true) ∧
    (∀ a, s.active_sink = some a →
      assocLookup (finishRun s).tmp a.path = some ⟨activeFrames s, true⟩ ∧
      assocLookup (finishRun s).target a.path = none) := by
  cases hact : s.active_sink with
  | none =>
      have htmp0 : s.tmp = [] := h.hnone hact
      have he : finishRun s = s := by simp [finishRun, hact]
      rw [he]
      have hround0 : concatFrames s.target = ps := by
        have := h.hround
        rwa [activeFrames_none hact, List.append_nil] at this
      refine ⟨hact, rfl, ?_, ?_, ?_⟩
      · rw [htmp0]; simpa [concatFrames] using hround0
      · intro f hf; rw [htmp0] at hf; cases hf
      · intro a ha; exact Option.noConfusion ha
  | some a =>
      obtain ⟨d, htmp, hdseal, hpath, htime, hsizea, hQa⟩ := h.hsome a hact
      have hlk : assocLookup s.tmp a.path = some d := by
        simp [htmp, assocLookup]
      have hround0 : concatFrames s.target ++ d.frames = ps := by
        have := h.hround
        rwa [activeFrames_some hact hlk] at this
      have he : finishRun s
          = { s with
              tmp := [(a.path, ⟨d.frames, true⟩)]
              active_sink := none } := by
        simp [finishRun, hact, shutdownActive, sealFile, htmp]
      rw [he]
      refine ⟨rfl, rfl, ?_, ?_, ?_⟩
      · show concatFrames s.target
            ++ concatFrames [(a.path, ⟨d.frames, true⟩)] = ps
        simpa [concatFrames] using hround0
      · intro f hf
        replace hf : f ∈ [(a.path, (⟨d.frames, true⟩ : FileData))] := hf
        simp only [List.mem_singleton] at hf
        subst hf
        rfl
      · intro a' ha'
        simp only [Option.some.injEq] at ha'
        subst ha'
        constructor
        · show assocLookup [(a.path, (⟨d.frames, true⟩ : FileData))] a.path
              = some ⟨activeFrames s, true⟩
          rw [activeFrames_some hact hlk]
          simp [assocLookup]
        · show assocLookup s.target a.path = none
          refine assocLookup_eq_none _ _ fun f hf => ?_
          have := h.hactb a hact f hf
          omega

/-! ## C1, C2, C4: the run-level sink theorems -/

/-- C1 (amended): for any finite schedule of messages and rollover ticks
handled at strictly increasing times and followed by a clean shutdown,
concatenating the decoded frames of all promoted files in
filename-timestamp order, FOLLOWED by the frames of the file left behind
in `tmp/` (the file active at shutdown is sealed but, unlike the claim
says, not promoted), yields exactly the input payload sequence in
order. -/
theorem c1_roundtrip_amended (ms rt : Nat) (dep : Bool)
    (events : List SinkEvent) (h : timesIncreasing 0 events = true) :
    concatFrames (sortByTs ((initSink ms rt dep).run events).target)
      ++ concatFrames ((initSink ms rt dep).run events).tmp
      = payloadsOf events := by
  obtain ⟨c', hinv⟩ := runLoop_inv events (initSink ms rt dep) 0 []
    (initSink_inv ms rt dep) h
  have hfin := finishRun_shape hinv
  show concatFrames
      (sortByTs (finishRun (runLoop (initSink ms rt dep) events)).target)
      ++ concatFrames (finishRun (runLoop (initSink ms rt dep) events)).tmp
      = payloadsOf events
  rw [hfin.2.1, sortByTs_eq_self hinv.hpair]
  have h3 := hfin.2.2.1
  rw [hfin.2.1] at h3
  simpa using h3

/-- C1 witness: one payload promoted by a (premature) timer roll, one
payload left sealed in `tmp/`. -/
theorem c1_roundtrip_amended_witness :
    timesIncreasing 0
      [SinkEvent.msg 1 [5], SinkEvent.tick 2, SinkEvent.msg 3 [7, 7]]
      = true ∧
    concatFrames (sortByTs ((initSink 1000 3 false).run
        [SinkEvent.msg 1 [5], SinkEvent.tick 2, SinkEvent.msg 3 [7, 7]]).target)
      ++ concatFrames ((initSink 1000 3 false).run
        [SinkEvent.msg 1 [5], SinkEvent.tick 2, SinkEvent.msg 3 [7, 7]]).tmp
      = payloadsOf
        [SinkEvent.msg 1 [5], SinkEvent.tick 2, SinkEvent.msg 3 [7, 7]] :=
  ⟨by decide, c1_roundtrip_amended 1000 3 false
    [SinkEvent.msg 1 [5], SinkEvent.tick 2, SinkEvent.msg 3 [7, 7]]
    (by decide)⟩

/-- C2 (amended): when the shutdown signal fires (or the channel reaches
end-of-stream), `run` returns only after the active file has been sealed
(writer flushed, gzip finalized) and its slot cleared; however the sealed
file REMAINS in `tmp/` and is not renamed into the target directory —
promotion of it only happens during the recovery pass of the next
`create`. -/
theorem c2_run_amended (ms rt : Nat) (dep : Bool) (events : List SinkEvent)
    (h : timesIncreasing 0 events = true) :
    ((initSink ms rt dep).run events).active_sink = none ∧
    (∀ f ∈ ((initSink ms rt dep).run events).tmp, f.2.sealed = true) ∧
    (∀ a, (runLoop (initSink ms rt dep) events).active_sink = some a →
      assocLookup ((initSink ms rt dep).run events).tmp a.path
        = some ⟨activeFrames (runLoop (initSink ms rt dep) events), true⟩ ∧
      assocLookup ((initSink ms rt dep).run events).target a.path = none) := by
  obtain ⟨c', hinv⟩ := runLoop_inv events (initSink ms rt dep) 0 []
    (initSink_inv ms rt dep) h
  have hfin := finishRun_shape hinv
  exact ⟨hfin.1, hfin.2.2.2.1, hfin.2.2.2.2⟩

/-- C2 witness: after a clean shutdown following one write, the active
file is sealed in `tmp/` under its timestamp name and absent from the
target directory. -/
theorem c2_run_amended_witness :
    timesIncreasing 0 [SinkEvent.msg 1 [5]] = true ∧
    ((initSink 1000 3 false).run [SinkEvent.msg 1 [5]]).active_sink
      = none ∧
    assocLookup ((initSink 1000 3 false).run [SinkEvent.msg 1 [5]]).tmp 1
      = some ⟨[[5]], true⟩ ∧
    assocLookup
      ((initSink 1000 3 false).run [SinkEvent.msg 1 [5]]).target 1
      = none := by
  have h := c2_run_amended 1000 3 false [SinkEvent.msg 1 [5]] (by decide)
  have h2 := h.2.2 ⟨1, 1, 1⟩ (by decide)
  exact ⟨by decide, h.1, h2.1, h2.2⟩

/-- C4: on every `write`, if the active file's accumulated size plus the
incoming record's length is at least `max_size`, the current file is
sealed and promoted and a fresh file is opened before the record is
written (first conjunct: the promoted file keeps exactly its old frames
and the fresh file holds exactly the new record).  Consequently (second
conjunct) every promoted file's uncompressed framed length — the sum of
its records' lengths, which is the sink's size accounting — is at most
`max_size` plus the length of the largest record sent. -/
theorem c4_size_roll :
    (∀ (s : FileSink) (t : Nat) (buf : List Nat) (a : ActiveSink)
        (d : FileData),
        s.active_sink = some a → s.tmp = [(a.path, d)] →
        s.max_size ≤ a.size + buf.length →
        ∃ u, s.write t buf = Except.ok
          { s with
            tmp := [(t, ⟨[buf], false⟩)]
            target := s.target ++ [(a.path, ⟨d.frames, true⟩)]
            uploads := u
            active_sink := some ⟨buf.length, t, t⟩ }) ∧
    (∀ (ms rt : Nat) (dep : Bool) (events : List SinkEvent),
        timesIncreasing 0 events = true →
        ∀ f ∈ ((initSink ms rt dep).run events).target,
          sumLen f.2.frames ≤ ms + maxLen (payloadsOf events)) := by
  constructor
  · intro s t buf a d hact htmp hsz
    exact write_overflow_eq s a d t buf hact htmp hsz
  · intro ms rt dep events h f hf
    obtain ⟨c', hinv⟩ := runLoop_inv events (initSink ms rt dep) 0 []
      (initSink_inv ms rt dep) h
    have hfin := finishRun_shape hinv
    have hf' : f ∈ (runLoop (initSink ms rt dep) events).target := by
      have heq : ((initSink ms rt dep).run events).target
          = (runLoop (initSink ms rt dep) events).target := hfin.2.1
      rwa [heq] at hf
    have hmax : (runLoop (initSink ms rt dep) events).max_size = ms := by
      rw [runLoop_max]; rfl
    rcases hinv.hQ f hf' with hlt | ⟨b, hb⟩
    · rw [hmax] at hlt
      omega
    · have hbmem : b ∈ concatFrames
          (runLoop (initSink ms rt dep) events).target :=
        mem_concatFrames hf' (by rw [hb]; exact List.mem_singleton_self b)
      have hbp : b ∈ payloadsOf events := by
        have hm : b ∈ concatFrames (runLoop (initSink ms rt dep) events).target
            ++ activeFrames (runLoop (initSink ms rt dep) events) :=
          List.mem_append_left _ hbmem
        rw [hinv.hround] at hm
        simpa using hm
      have hlen := length_le_maxLen hbp
      rw [hb]
      simp only [sumLen]
      omega

/-- C4 witness: the overflow step evaluated on a concrete sink, and the
size bound evaluated on a run with one premature-roll promotion. -/
theorem c4_size_roll_witness :
    (demoOverflowSink.active_sink = some ⟨5, 1, 1⟩ ∧
      demoOverflowSink.tmp = [(1, ⟨[[9, 9, 9, 9, 9]], false⟩)] ∧
      demoOverflowSink.max_size ≤ 5 + [7, 7, 7].length ∧
      ∃ u, demoOverflowSink.write 2 [7, 7, 7] = Except.ok
        { demoOverflowSink with
          tmp := [(2, ⟨[[7, 7, 7]], false⟩)]
          target := [(1, ⟨[[9, 9, 9, 9, 9]], true⟩)]
          uploads := u
          active_sink := some ⟨3, 2, 2⟩ }) ∧
    (timesIncreasing 0 [SinkEvent.msg 1 [5], SinkEvent.tick 2] = true ∧
      ∀ f ∈ ((initSink 1000 3 false).run
          [SinkEvent.msg 1 [5], SinkEvent.tick 2]).target,
        sumLen f.2.frames
          ≤ 1000 + maxLen (payloadsOf
              [SinkEvent.msg 1 [5], SinkEvent.tick 2])) := by
  constructor
  · refine ⟨rfl, rfl, by decide, ?_⟩
    exact c4_size_roll.1 demoOverflowSink 2 [7, 7, 7] ⟨5, 1, 1⟩
      ⟨[[9, 9, 9, 9, 9]], false⟩ rfl rfl (by decide)
  · exact ⟨by decide, c4_size_roll.2 1000 3 false
      [SinkEvent.msg 1 [5], SinkEvent.tick 2] (by decide)⟩

end Oracles
